import Mathlib

/-!
Verification development for `pcs_scraper/utils.py`.

Strings are modelled as `List Char`; Python exceptions as the `PyErr` type and
fallible code as `Except PyErr`; `datetime.timedelta` values (whole seconds
only, which is all this code ever builds) as their total number of seconds,
an `Int`.  Python `str.split(sep)` (which keeps empty pieces) is `pySplit`,
`int(...)` is `pyInt`, `str(...)` of a nonnegative integer is `natChars`,
`"%02d"` is `pad2`, and indexing/`len` that can raise become `Except` values.
-/

/-- The Python exceptions that the embedded code can raise. -/
inductive PyErr : Type
  | typeError (msg : String)
  | valueError (msg : String)
  | indexError (msg : String)
  /-- `ParsedValueInvalidError` raised with a string (possibly `None`). -/
  | parsedValueInvalidS (v : Option (List Char))
  /-- `ParsedValueInvalidError` raised with a number (possibly `None`). -/
  | parsedValueInvalidN (v : Option Int)
deriving DecidableEq

/-- Python `str.split(sep)` for a single-character separator: keeps empty
pieces, and splitting the empty string yields `[""]`. -/
def pySplit (sep : Char) : List Char → List (List Char)
  | [] => [[]]
  | c :: rest =>
    let r := pySplit sep rest
    if c = sep then [] :: r
    else
      match r with
      | [] => [[c]]
      | h :: t => (c :: h) :: t

/-- Python slicing `s[i:j]` (for `0 ≤ i ≤ j`). -/
def pySlice (s : List Char) (i j : Nat) : List Char := (s.drop i).take (j - i)

/-- Python indexing `s[i]` on a string; every use site is in range, so the
out-of-range default is irrelevant there. -/
def getChar (s : List Char) (i : Nat) : Char := (s.drop i).headD ' '

/-- Python `lst[i]` on a list, raising `IndexError` when out of range. -/
def pyIndex {α : Type} (l : List α) (i : Nat) : Except PyErr α :=
  match l[i]? with
  | some x => Except.ok x
  | none => Except.error (.indexError "list index out of range")

/-- Python `len(...)` on an optional string: `len(None)` raises `TypeError`. -/
def pyLen (s : Option (List Char)) : Except PyErr Nat :=
  match s with
  | none => Except.error (.typeError "object of type \x27NoneType\x27 has no len()")
  | some l => Except.ok l.length

/-- Python `str.isnumeric` restricted to ASCII digit strings (true iff the
string is nonempty and all of its characters are digits). -/
def pyIsNumeric (s : List Char) : Bool := !s.isEmpty && s.all Char.isDigit

/-- Decimal value of a digit string (accumulator form, as `int` parses). -/
def charsToNat (s : List Char) : Nat :=
  s.foldl (fun a c => 10 * a + (c.toNat - 48)) 0

/-- Python `int(...)` on the strings arising here: an optional minus sign
followed by a nonempty run of digits; anything else raises `ValueError`. -/
def pyInt (s : List Char) : Except PyErr Int :=
  let sign : Int := if s.headD ' ' = '-' then -1 else 1
  let digits := if s.headD ' ' = '-' then s.tail else s
  if !digits.isEmpty && digits.all Char.isDigit then Except.ok (sign * charsToNat digits)
  else Except.error (.valueError "invalid literal for int() with base 10")

/-- Decimal digits of `n`, fuel-indexed so that the recursion is structural;
adequate whenever `n < fuel`. -/
def natCharsFuel : Nat → Nat → List Char
  | 0, _ => []
  | fuel + 1, n =>
    if n < 10 then [Nat.digitChar n]
    else natCharsFuel fuel (n / 10) ++ [Nat.digitChar (n % 10)]

/-- Python `str(n)` for a natural number. -/
def natChars (n : Nat) : List Char := natCharsFuel (n + 1) n

/-- Python `str(t)` for an integer. -/
def intChars (t : Int) : List Char :=
  if t < 0 then '-' :: natChars (-t).toNat else natChars t.toNat

/-- Python `"%02d" % n` for `0 ≤ n` (pads a single digit with a leading 0). -/
def pad2 (n : Nat) : List Char :=
  if n < 10 then ['0', Nat.digitChar n] else natChars n

/-!
## The date/time functions of `utils.py`
-/

/-- `utils.convert_date`'s month-name table (January is index 0). -/
def monthNames : List (List Char) :=
  ["January".toList, "February".toList, "March".toList, "April".toList,
   "May".toList, "June".toList, "July".toList, "August".toList,
   "September".toList, "October".toList, "November".toList, "December".toList]

/-- Modelled from the Python standard library (not part of this repository):
`datetime.datetime.strptime(month, "%B").month`, restricted to the twelve
exactly-capitalized English month names. -/
def strptimeMonthB (m : List Char) : Option Nat :=
  (monthNames.findIdx? (fun n => n = m)).map (· + 1)

/-- `utils.convert_date`: `"D Month YYYY"` → `"YYYY-MM-D"`. -/
def convert_date (date : List Char) : Except PyErr (List Char) :=
  match pySplit ' ' date with
  | [day, month, year] =>
    match strptimeMonthB month with
    | some m =>
      let monthStr := if m < 10 then '0' :: natChars m else natChars m
      Except.ok (List.intercalate ['-'] [year, monthStr, day])
    | none => Except.error (.valueError "time data does not match format %B")
  | _ => Except.error (.valueError "not enough values to unpack")

/-- Python `str(timedelta)` (CPython `timedelta.__str__`) for a whole-second
timedelta of `t` total seconds: normalizes to days (floor division) plus a
`0 ≤` remainder, prints `H:MM:SS` and prefixes `D day(s), ` when `D ≠ 0`. -/
def timedeltaStr (t : Int) : List Char :=
  let days := Int.fdiv t 86400
  let secs := (Int.fmod t 86400).toNat
  let hh := secs / 3600
  let mm := secs % 3600 / 60
  let ss := secs % 60
  let base := natChars hh ++ ':' :: pad2 mm ++ ':' :: pad2 ss
  if days = 0 then base
  else
    intChars days ++
      (if days = 1 || days = -1 then " day, ".toList else " days, ".toList) ++ base

/-- `utils.timedelta_to_time`: timedelta → `H:MM:SS` text, folding days into
hours at 24 hours per day. -/
def timedelta_to_time (tdelta : Int) : Except PyErr (List Char) := do
  let time := pySplit ' ' (timedeltaStr tdelta)
  if time.length > 1 then do
    let days ← pyIndex time 0
    let t ← pyIndex time 2
    let h0 ← pyIndex (pySplit ':' t) 0
    let hn ← pyInt h0
    let dn ← pyInt days
    let hours : Int := hn + 24 * dn
    let minutes_seconds := List.intercalate [':'] ((pySplit ':' t).drop 1)
    pure (intChars hours ++ ':' :: minutes_seconds)
  else do
    let t0 ← pyIndex time 0
    let h0 ← pyIndex (pySplit ':' t0) 0
    let minutes_seconds := List.intercalate [':'] ((pySplit ':' t0).drop 1)
    pure (h0 ++ ':' :: minutes_seconds)

/-- `utils.time_to_timedelta`: `H:MM:SS` text → timedelta. -/
def time_to_timedelta (time : List Char) : Except PyErr Int := do
  let vals ← (pySplit ':' time).mapM pyInt
  match vals with
  | [hours, minutes, seconds] => pure (3600 * hours + 60 * minutes + seconds)
  | _ => Except.error (.valueError "not enough values to unpack")

/-- `utils.format_time`: pads the values of the last two colon components to
two digits (writing the results back at positions 0 and 1, as the source's
`enumerate` loop does) and prefixes `0:` when there were two components. -/
def format_time (time : List Char) : List Char :=
  let parts := pySplit ':' time
  let lastTwo := parts.drop (parts.length - 2)
  let parts2 := lastTwo.enum.foldl
    (fun ps iv => if iv.2.length = 1 then ps.set iv.1 ('0' :: iv.2) else ps) parts
  let time_str := List.intercalate [':'] parts2
  if parts2.length = 2 then '0' :: ':' :: time_str else time_str

/-- `utils.add_time`: normalize both operands, convert to timedeltas, add,
convert back. -/
def add_time (time1 time2 : List Char) : Except PyErr (List Char) := do
  let tdelta1 ← time_to_timedelta (format_time time1)
  let tdelta2 ← time_to_timedelta (format_time time2)
  timedelta_to_time (tdelta1 + tdelta2)

/-- The spec's description of time addition, written as the stated pipeline:
normalize each operand with loose-time normalization, convert each to a
duration, sum the two durations, and render the sum as `H:MM:SS` text. -/
def add_time_pipeline (time1 time2 : List Char) : Except PyErr (List Char) := do
  let d1 ← time_to_timedelta (format_time time1)
  let d2 ← time_to_timedelta (format_time time2)
  timedelta_to_time (d1 + d2)

/-!
## The validators of `utils.py`
-/

/-- An `int`-or-`±math.inf` bound, as used for the validators' defaults. -/
inductive XInt : Type
  | negInf
  | fin (n : Int)
  | posInf
deriving DecidableEq

/-- Python `n > b` for an `Int` against a possibly infinite bound. -/
def xGt (n : Int) : XInt → Bool
  | .negInf => true
  | .fin m => n > m
  | .posInf => false

/-- Python `n < b` for an `Int` against a possibly infinite bound. -/
def xLt (n : Int) : XInt → Bool
  | .negInf => false
  | .fin m => n < m
  | .posInf => true

/-- Python `len > max_length` where `max_length` may be `math.inf`. -/
def lenGt (l : Nat) : XInt → Bool
  | .negInf => true
  | .fin m => (l : Int) > m
  | .posInf => false

/-- Truthiness of the `options` argument: `None` and `[]` are falsy. -/
def truthyOpt (o : Option (List (List Char))) : Bool :=
  match o with
  | none => false
  | some l => !l.isEmpty

/-- Python `string in options` where `string` may be `None` (`None` never
equals a string, so membership is false then). -/
def pyMem (s : Option (List Char)) (o : Option (List (List Char))) : Bool :=
  match s, o with
  | some str, some l => l.contains str
  | _, _ => false

/-- `utils.validate_string`.  `re_fullmatch` is the embedding's interface to
the Python `re` module: `re_fullmatch p s` stands for
`re.fullmatch(p, s) is not None` for a non-`None` string `s`; calling
`re.fullmatch` with `None` raises `TypeError`, as the `none` branch records. -/
def validate_string (re_fullmatch : List Char → List Char → Bool)
    (string : Option (List Char)) (min_length : Int) (max_length : XInt)
    (regex : List Char) (options : Option (List (List Char)))
    (can_be_none : Bool) (error : Option PyErr) : Except PyErr Unit := do
  let valid := true
  let valid := if !can_be_none && string.isNone then false else valid
  let valid := if truthyOpt options && !pyMem string options then false else valid
  let l ← pyLen string
  let valid := if (l : Int) < min_length || lenGt l max_length then false else valid
  let valid ← if !regex.isEmpty then do
      let formatted_regex := regex.filter (fun c => c ≠ '\n' && c ≠ ' ')
      match string with
      | some s => pure (if re_fullmatch formatted_regex s then valid else false)
      | none => Except.error (.typeError "expected string or bytes-like object")
    else pure valid
  if !valid then
    match error with
    | none => Except.error (.parsedValueInvalidS string)
    | some e => Except.error e
  else pure ()

/-- `utils.validate_number` (numbers restricted to integers; the bounds keep
their `±math.inf` defaults via `XInt`).  Comparing `None` with a bound raises
`TypeError`, as in Python 3. -/
def validate_number (number : Option Int) (min_ : XInt) (max_ : XInt)
    (can_be_none : Bool) (error : Option PyErr) : Except PyErr Unit := do
  let valid := true
  let valid := if !can_be_none && number.isNone then false else valid
  let bad ← match number with
    | none =>
      Except.error
        (.typeError "\x27>\x27 not supported between instances of \x27NoneType\x27 and \x27int\x27")
    | some n => pure (xGt n max_ || xLt n min_)
  let valid := if bad then false else valid
  if !valid then
    match error with
    | none => Except.error (.parsedValueInvalidN number)
    | some e => Except.error e
  else pure ()

/-!
## `utils.get_day_month` and `utils.parse_table_fields_args`
-/

/-- One iteration of `get_day_month`'s scanning loop at window start `i`,
threading the `(day, month)` accumulator.  The `[day, month] = ...split(...)`
destructuring raises `ValueError` when the split does not have exactly two
pieces (which in fact never happens, as proved below). -/
def gdmStep (s : List Char) (dm : List Char × List Char) (i : Nat) :
    Except PyErr (List Char × List Char) :=
  if pyIsNumeric (pySlice s i (i + 2)) && pyIsNumeric (pySlice s (i + 3) (i + 5)) then
    if getChar s (i + 2) = '/' then
      match pySplit '/' (pySlice s i (i + 5)) with
      | [d, m] => Except.ok (d, m)
      | _ => Except.error (.valueError "not enough values to unpack")
    else if getChar s (i + 2) = '-' then
      match pySplit '-' (pySlice s i (i + 5)) with
      | [d, m] => Except.ok (d, m)
      | _ => Except.error (.valueError "not enough values to unpack")
    else Except.ok dm
  else Except.ok dm

/-- `utils.get_day_month`: scan every window start `i` of `s[:-4]`, keeping
the `(day, month)` of each matching window, then return the accumulator if it
is numeric and raise `ValueError` otherwise. -/
def get_day_month (s : List Char) : Except PyErr (List Char × List Char) := do
  let dm ← (List.range (s.length - 4)).foldlM (gdmStep s) ([], [])
  if pyIsNumeric dm.1 && pyIsNumeric dm.2 then pure dm
  else Except.error (.valueError "Given string doesn\x27t contain day and month in wanted format")

/-- Whether the 5-character window of `s` starting at `i` is a date window:
offsets 0–1 and 3–4 numeric and offset 2 a `/` or `-` separator. -/
def matchAt (s : List Char) (i : Nat) : Bool :=
  pyIsNumeric (pySlice s i (i + 2)) && pyIsNumeric (pySlice s (i + 3) (i + 5)) &&
    (getChar s (i + 2) = '/' || getChar s (i + 2) = '-')

/-- The `(day, month)` pair of the window of `s` starting at `i`. -/
def pairAt (s : List Char) (i : Nat) : List Char × List Char :=
  (pySlice s i (i + 2), pySlice s (i + 3) (i + 5))

/-- The start of the last matching window of `s`, if any. -/
def lastMatchIdx (s : List Char) : Option Nat :=
  (List.range (s.length - 4)).reverse.find? (matchAt s)

/-- The last-matching-window reading of the scanner: return the `(day, month)`
pair of the last matching 5-character window, and raise `ValueError` with the
source's message when no window matches. -/
def get_day_month_lastw (s : List Char) : Except PyErr (List Char × List Char) :=
  match lastMatchIdx s with
  | some i => Except.ok (pairAt s i)
  | none =>
    Except.error (.valueError "Given string doesn\x27t contain day and month in wanted format")

/-- The claim's (and the spec's) reading of the scanner: return the
`(day, month)` pair of the first matching 5-character window, scanning left to
right, and raise an error when no window matches. -/
def get_day_month_firstw (s : List Char) : Except PyErr (List Char × List Char) :=
  match (List.range (s.length - 4)).find? (matchAt s) with
  | some i => Except.ok (pairAt s i)
  | none =>
    Except.error (.valueError "Given string doesn\x27t contain day and month in wanted format")

/-- `utils.parse_table_fields_args`. -/
def parse_table_fields_args (args available_fields : List String) :
    Except PyErr (List String) := do
  args.forM (fun arg =>
    if available_fields.contains arg then pure ()
    else Except.error (.valueError "Invalid field argument"))
  if !args.isEmpty then pure args else pure available_fields

/-!
## The `reg` pattern table of `utils.py`

Regular expressions are embedded as an AST whose matching semantics is the
executable Brzozowski-derivative matcher `reMatch`.  Character classes are
first-order (`CC`) so the AST has decidable equality.  Python's `.` matches
every character except a newline.
-/

/-- Character classes occurring in the patterns of `reg`. -/
inductive CC : Type
  | digit
  | nonzero
  | alphaCh
  | lowerCh
  | alnum
  | dotAny
deriving DecidableEq

/-- Membership in a character class (ASCII reading of the Python classes). -/
def CC.mem : CC → Char → Bool
  | .digit, c => c.isDigit
  | .nonzero, c => '1' ≤ c && c ≤ '9'
  | .alphaCh, c => c.isAlpha
  | .lowerCh, c => 'a' ≤ c && c ≤ 'z'
  | .alnum, c => c.isAlpha || c.isDigit
  | .dotAny, c => c ≠ '\n'

/-- Regular-expression AST. -/
inductive RE : Type
  | emptyset
  | eps
  | ch (c : Char)
  | cls (k : CC)
  | cat (r₁ r₂ : RE)
  | alt (r₁ r₂ : RE)
  | star (r : RE)
deriving DecidableEq

/-- `X+` -/
def plusRE (r : RE) : RE := .cat r (.star r)

/-- `X?` -/
def optRE (r : RE) : RE := .alt .eps r

/-- `X{n}` -/
def repRE : Nat → RE → RE
  | 0, _ => .eps
  | n + 1, r => .cat r (repRE n r)

/-- The regex matching a literal string. -/
def strRE (s : List Char) : RE := s.foldr (fun c r => .cat (.ch c) r) .eps

/-- Whether the regex accepts the empty string. -/
def nullable : RE → Bool
  | .emptyset => false
  | .eps => true
  | .ch _ => false
  | .cls _ => false
  | .cat a b => nullable a && nullable b
  | .alt a b => nullable a || nullable b
  | .star _ => true

/-- Smart concatenation (collapses the empty language and the empty string). -/
def scat (a b : RE) : RE :=
  if a = .emptyset then .emptyset else if a = .eps then b else .cat a b

/-- Smart alternation (collapses the empty language). -/
def salt (a b : RE) : RE :=
  if a = .emptyset then b else if b = .emptyset then a else .alt a b

/-- Brzozowski derivative of a regex by a character. -/
def rderiv : RE → Char → RE
  | .emptyset, _ => .emptyset
  | .eps, _ => .emptyset
  | .ch b, c => if b = c then .eps else .emptyset
  | .cls k, c => if k.mem c then .eps else .emptyset
  | .cat a b, c => if nullable a then salt (scat (rderiv a c) b) (rderiv b c) else scat (rderiv a c) b
  | .alt a b, c => salt (rderiv a c) (rderiv b c)
  | .star a, c => scat (rderiv a c) (.star a)

/-- Full-string matching (`re.fullmatch`-style) by iterated derivatives. -/
def reMatch (r : RE) (s : List Char) : Bool := nullable (s.foldl rderiv r)

/-- `reg.base_url`, the pattern `(https:\/\/www.procyclingstats.com\/+)` —
note the unescaped dots, which are the any-character class. -/
def reg.base_url : RE :=
  .cat (strRE "https://www".toList)
    (.cat (.cls .dotAny)
      (.cat (strRE "procyclingstats".toList)
        (.cat (.cls .dotAny) (.cat (strRE "com".toList) (plusRE (.ch '/'))))))

/-- `reg.url_str`, the pattern `(\/+([a-zA-Z]+-)*([a-zA-Z]+))`. -/
def reg.url_str : RE :=
  .cat (plusRE (.ch '/'))
    (.cat (.star (.cat (plusRE (.cls .alphaCh)) (.ch '-'))) (plusRE (.cls .alphaCh)))

/-- `reg.year`, the pattern `(\/+\d{4})`. -/
def reg.year : RE := .cat (plusRE (.ch '/')) (repRE 4 (.cls .digit))

/-- The `stage-N`/`prologue` alternative inside `reg.stage`:
`(stage-([1-9]([0-9])?([a-z])?)|prologue)`. -/
def reg.stageName : RE :=
  .alt
    (.cat (strRE "stage-".toList)
      (.cat (.cls .nonzero) (.cat (optRE (.cls .digit)) (optRE (.cls .lowerCh)))))
    (strRE "prologue".toList)

/-- The optional classification suffix inside `reg.stage`:
`(\/gc|-points|-kom|-youth|-teams)?`. -/
def reg.stageSuffix : RE :=
  optRE (.alt (strRE "/gc".toList)
    (.alt (strRE "-points".toList)
      (.alt (strRE "-kom".toList)
        (.alt (strRE "-youth".toList) (strRE "-teams".toList)))))

/-- `reg.stage`, the pattern
`(\/+(((stage-([1-9]([0-9])?([a-z])?)|prologue)(\/gc|-points|-kom|-youth|-teams)?)|gc))`. -/
def reg.stage : RE :=
  .cat (plusRE (.ch '/'))
    (.alt (.cat reg.stageName reg.stageSuffix) (strRE "gc".toList))

/-- `reg.result`, the pattern `(\/+result)`. -/
def reg.result : RE := .cat (plusRE (.ch '/')) (strRE "result".toList)

/-- `reg.overview`, the pattern `(\/+overview)`. -/
def reg.overview : RE := .cat (plusRE (.ch '/')) (strRE "overview".toList)

/-- `reg.startlist`, the pattern `(\/+startlist)`. -/
def reg.startlist : RE := .cat (plusRE (.ch '/')) (strRE "startlist".toList)

/-- `reg.team_url_str`, the pattern `(\/(([a-zA-Z0-9]+-)+)\d{4,5})` — a single
`\/`, not `\/+`. -/
def reg.team_url_str : RE :=
  .cat (.ch '/')
    (.cat (plusRE (.cat (plusRE (.cls .alnum)) (.ch '-')))
      (.cat (repRE 4 (.cls .digit)) (optRE (.cls .digit))))

/-- `reg.anything`, the pattern `(\/+.*)`. -/
def reg.anything : RE := .cat (plusRE (.ch '/')) (.star (.cls .dotAny))

/-- `mustStart r c = true` guarantees that every string accepted by `r`
starts with the character `c` (proved below as `reMatch_mustStart`). -/
def mustStart : RE → Char → Bool
  | .emptyset, _ => true
  | .eps, _ => false
  | .ch b, c => b = c
  | .cls _, _ => false
  | .cat a _, c => mustStart a c
  | .alt a b, c => mustStart a c && mustStart b c
  | .star _, _ => false

/-- The spec's inclusive bounds check for the number validator:
`min_ ≤ number` and `number ≤ max_`, against possibly infinite bounds. -/
def inBoundsB (min_ : XInt) (n : Int) (max_ : XInt) : Bool :=
  (match min_ with
    | .negInf => true
    | .fin m => m ≤ n
    | .posInf => false) &&
  (match max_ with
    | .negInf => false
    | .fin m => n ≤ m
    | .posInf => true)

/-- The canonical well-formed `H:MM:SS` string: hours in plain decimal (no
leading zeros), minutes and seconds zero-padded to two digits. -/
def hmsStr (H M S : Nat) : List Char :=
  natChars H ++ ':' :: (pad2 M ++ ':' :: pad2 S)

/-!
## Helper lemmas: splitting and decimal digit strings
-/

theorem pySplit_ne_nil (sep : Char) (s : List Char) : pySplit sep s ≠ [] := by
  induction s with
  | nil => simp [pySplit]
  | cons c rest ih =>
    simp only [pySplit]
    split
    · simp
    · split <;> simp

theorem pySplit_no_sep {sep : Char} : ∀ {s : List Char}, sep ∉ s → pySplit sep s = [s] := by
  intro s
  induction s with
  | nil => intro _; rfl
  | cons c rest ih =>
    intro h
    have hc : ¬(c = sep) := fun e => h (by simp [e])
    have hr : sep ∉ rest := fun e => h (List.mem_cons_of_mem _ e)
    simp [pySplit, if_neg hc, ih hr]

theorem pySplit_append {sep : Char} : ∀ {a : List Char}, sep ∉ a → ∀ rest,
    pySplit sep (a ++ sep :: rest) = a :: pySplit sep rest := by
  intro a
  induction a with
  | nil => intro _ rest; simp [pySplit]
  | cons c t ih =>
    intro h rest
    have hc : ¬(c = sep) := fun e => h (by simp [e])
    have ht : sep ∉ t := fun e => h (List.mem_cons_of_mem _ e)
    simp [List.cons_append, pySplit, ih ht rest, if_neg hc]

theorem pySplit_two {sep : Char} {a b : List Char} (ha : sep ∉ a) (hb : sep ∉ b) :
    pySplit sep (a ++ sep :: b) = [a, b] := by
  rw [pySplit_append ha, pySplit_no_sep hb]

theorem pySplit_three {sep : Char} {a b c : List Char}
    (ha : sep ∉ a) (hb : sep ∉ b) (hc : sep ∉ c) :
    pySplit sep (a ++ sep :: (b ++ sep :: c)) = [a, b, c] := by
  rw [pySplit_append ha, pySplit_two hb hc]

theorem digitChar_isDigit {n : Nat} (h : n < 10) : (Nat.digitChar n).isDigit = true := by
  interval_cases n <;> decide

theorem digitChar_toNat {n : Nat} (h : n < 10) : (Nat.digitChar n).toNat - 48 = n := by
  interval_cases n <;> decide

theorem natCharsFuel_digits :
    ∀ fuel n, n < fuel → ∀ c ∈ natCharsFuel fuel n, c.isDigit = true := by
  intro fuel
  induction fuel with
  | zero => intro n h; omega
  | succ f ih =>
    intro n h c hc
    by_cases h10 : n < 10
    · simp only [natCharsFuel, if_pos h10, List.mem_singleton] at hc
      exact hc ▸ digitChar_isDigit h10
    · simp only [natCharsFuel, if_neg h10, List.mem_append, List.mem_singleton] at hc
      rcases hc with hc | hc
      · exact ih (n / 10) (by omega) c hc
      · exact hc ▸ digitChar_isDigit (Nat.mod_lt _ (by omega))

theorem natChars_digits (n : Nat) : ∀ c ∈ natChars n, c.isDigit = true :=
  natCharsFuel_digits (n + 1) n (Nat.lt_succ_self n)

theorem natCharsFuel_ne_nil : ∀ fuel n, 0 < fuel → natCharsFuel fuel n ≠ [] := by
  intro fuel n h
  match fuel, h with
  | f + 1, _ =>
    by_cases h10 : n < 10 <;> simp [natCharsFuel, h10]

theorem natChars_ne_nil (n : Nat) : natChars n ≠ [] :=
  natCharsFuel_ne_nil (n + 1) n (Nat.succ_pos n)

theorem charsToNat_append_singleton (a : List Char) (c : Char) :
    charsToNat (a ++ [c]) = 10 * charsToNat a + (c.toNat - 48) := by
  simp [charsToNat, List.foldl_append]

theorem charsToNat_natCharsFuel :
    ∀ fuel n, n < fuel → charsToNat (natCharsFuel fuel n) = n := by
  intro fuel
  induction fuel with
  | zero => intro n h; omega
  | succ f ih =>
    intro n h
    by_cases h10 : n < 10
    · have : charsToNat [Nat.digitChar n] = (Nat.digitChar n).toNat - 48 := by
        simp [charsToNat]
      simp only [natCharsFuel, if_pos h10, this, digitChar_toNat h10]
    · simp only [natCharsFuel, if_neg h10, charsToNat_append_singleton,
        ih (n / 10) (by omega), digitChar_toNat (Nat.mod_lt _ (by omega))]
      omega

theorem charsToNat_natChars (n : Nat) : charsToNat (natChars n) = n :=
  charsToNat_natCharsFuel (n + 1) n (Nat.lt_succ_self n)

theorem not_mem_of_digits {l : List Char} (hd : ∀ c ∈ l, c.isDigit = true) {x : Char}
    (hx : x.isDigit = false) : x ∉ l := by
  intro hm
  rw [hd x hm] at hx
  cases hx

theorem pyInt_digits {s : List Char} (hne : s ≠ []) (hd : ∀ c ∈ s, c.isDigit = true) :
    pyInt s = Except.ok (charsToNat s : Int) := by
  rcases s with _ | ⟨c, t⟩
  · exact absurd rfl hne
  · have hc : c.isDigit = true := hd c (List.mem_cons_self c t)
    have hcm : ¬(c = '-') := by
      intro e
      rw [e] at hc
      exact absurd hc (by decide)
    have hall : (c :: t).all Char.isDigit = true := List.all_eq_true.mpr hd
    simp [pyInt, hcm, hall, hd]

theorem pyInt_natChars (n : Nat) : pyInt (natChars n) = Except.ok (n : Int) := by
  rw [pyInt_digits (natChars_ne_nil n) (natChars_digits n), charsToNat_natChars]

theorem pad2_digits (n : Nat) : ∀ c ∈ pad2 n, c.isDigit = true := by
  intro c hc
  by_cases h10 : n < 10
  · simp only [pad2, if_pos h10, List.mem_cons, List.mem_singleton,
      List.not_mem_nil, or_false] at hc
    rcases hc with hc | hc
    · simp [hc]
    · exact hc ▸ digitChar_isDigit h10
  · simp only [pad2, if_neg h10] at hc
    exact natChars_digits n c hc

theorem pad2_ne_nil (n : Nat) : pad2 n ≠ [] := by
  by_cases h10 : n < 10 <;> simp [pad2, h10, natChars_ne_nil]

theorem pyInt_pad2 (n : Nat) : pyInt (pad2 n) = Except.ok (n : Int) := by
  rw [pyInt_digits (pad2_ne_nil n) (pad2_digits n)]
  by_cases h10 : n < 10
  · have : charsToNat (pad2 n) = n := by
      simp [pad2, if_pos h10, charsToNat, digitChar_toNat h10]
    rw [this]
  · simp [pad2, if_neg h10, charsToNat_natChars]

theorem intercalate_two (s x y : List Char) :
    List.intercalate s [x, y] = x ++ (s ++ y) := by
  simp [List.intercalate, List.intersperse]

theorem intercalate_three (s x y z : List Char) :
    List.intercalate s [x, y, z] = x ++ (s ++ (y ++ (s ++ z))) := by
  simp [List.intercalate, List.intersperse]

/-!
## Helper lemmas: the derivative matcher
-/

theorem foldl_rderiv_emptyset : ∀ s : List Char, s.foldl rderiv RE.emptyset = RE.emptyset := by
  intro s
  induction s with
  | nil => rfl
  | cons c t ih => simpa [rderiv] using ih

theorem reMatch_emptyset (s : List Char) : reMatch RE.emptyset s = false := by
  simp [reMatch, foldl_rderiv_emptyset, nullable]

theorem mustStart_not_nullable : ∀ {r : RE} {c : Char},
    mustStart r c = true → nullable r = false := by
  intro r
  induction r with
  | emptyset => intro c _; rfl
  | eps => intro c h; cases h
  | ch b => intro c _; rfl
  | cls k => intro c _; rfl
  | cat a b iha ihb =>
    intro c h
    simp only [mustStart] at h
    simp [nullable, iha h]
  | alt a b iha ihb =>
    intro c h
    simp only [mustStart, Bool.and_eq_true] at h
    simp [nullable, iha h.1, ihb h.2]
  | star a iha => intro c h; cases h

theorem mustStart_rderiv : ∀ {r : RE} {c b : Char},
    mustStart r c = true → ¬(b = c) → rderiv r b = RE.emptyset := by
  intro r
  induction r with
  | emptyset => intro c b _ _; rfl
  | eps => intro c b h _; cases h
  | ch d =>
    intro c b h hb
    simp only [mustStart, decide_eq_true_eq] at h
    subst h
    have hdb : ¬(d = b) := fun e => hb e.symm
    simp [rderiv, hdb]
  | cls k => intro c b h _; cases h
  | cat a d iha ihd =>
    intro c b h hb
    simp only [mustStart] at h
    simp [rderiv, mustStart_not_nullable h, iha h hb, scat]
  | alt a d iha ihd =>
    intro c b h hb
    simp only [mustStart, Bool.and_eq_true] at h
    simp [rderiv, iha h.1 hb, ihd h.2 hb, salt]
  | star a iha => intro c b h _; cases h

/-- Every string accepted by a regex with `mustStart r c` begins with `c`. -/
theorem reMatch_mustStart {r : RE} {c : Char} (h : mustStart r c = true) :
    ∀ {s : List Char}, reMatch r s = true → ∃ t, s = c :: t := by
  intro s hm
  rcases s with _ | ⟨b, t⟩
  · rw [reMatch, List.foldl_nil, mustStart_not_nullable h] at hm
    cases hm
  · by_cases hbc : b = c
    · exact ⟨t, by rw [hbc]⟩
    · exfalso
      rw [reMatch, List.foldl_cons, mustStart_rderiv h hbc, foldl_rderiv_emptyset] at hm
      cases hm

theorem salt_emptyset_left (x : RE) : salt RE.emptyset x = x := by
  simp [salt]

theorem salt_emptyset_right (x : RE) : salt x RE.emptyset = x := by
  by_cases h : x = RE.emptyset <;> simp [salt, h]

theorem reMatch_alt_emptyset_left (s : List Char) (a : RE) :
    reMatch (RE.alt RE.emptyset a) s = reMatch a s := by
  rcases s with _ | ⟨c, t⟩
  · simp [reMatch, nullable]
  · show reMatch (rderiv (RE.alt RE.emptyset a) c) t = reMatch (rderiv a c) t
    rw [show rderiv (RE.alt RE.emptyset a) c = rderiv a c by
      simp [rderiv, salt_emptyset_left]]

theorem reMatch_alt_emptyset_right (s : List Char) (a : RE) :
    reMatch (RE.alt a RE.emptyset) s = reMatch a s := by
  rcases s with _ | ⟨c, t⟩
  · simp [reMatch, nullable]
  · show reMatch (rderiv (RE.alt a RE.emptyset) c) t = reMatch (rderiv a c) t
    rw [show rderiv (RE.alt a RE.emptyset) c = rderiv a c by
      simp [rderiv, salt_emptyset_right]]

theorem reMatch_salt (a b : RE) (s : List Char) :
    reMatch (salt a b) s = reMatch (RE.alt a b) s := by
  by_cases ha : a = RE.emptyset
  · subst ha
    rw [salt_emptyset_left, reMatch_alt_emptyset_left]
  · by_cases hb : b = RE.emptyset
    · subst hb
      rw [salt_emptyset_right, reMatch_alt_emptyset_right]
    · simp [salt, ha, hb]

theorem reMatch_alt : ∀ (s : List Char) (a b : RE),
    reMatch (RE.alt a b) s = (reMatch a s || reMatch b s) := by
  intro s
  induction s with
  | nil => intro a b; simp [reMatch, nullable]
  | cons c t ih =>
    intro a b
    calc reMatch (RE.alt a b) (c :: t)
        = reMatch (salt (rderiv a c) (rderiv b c)) t := rfl
      _ = reMatch (RE.alt (rderiv a c) (rderiv b c)) t := reMatch_salt _ _ _
      _ = (reMatch (rderiv a c) t || reMatch (rderiv b c) t) := ih _ _
      _ = (reMatch a (c :: t) || reMatch b (c :: t)) := rfl

/-- Pumping leading slashes through `(star '/') ⬝ X`. -/
theorem reMatch_star_slash_pump (X : RE) :
    ∀ (n : Nat) (t : List Char), reMatch (RE.cat (RE.star (RE.ch '/')) X) t = true →
      reMatch (RE.cat (RE.star (RE.ch '/')) X) (List.replicate n '/' ++ t) = true := by
  intro n
  induction n with
  | zero => intro t h; simpa using h
  | succ m ih =>
    intro t h
    have hstep : rderiv (RE.cat (RE.star (RE.ch '/')) X) '/' =
        salt (RE.cat (RE.star (RE.ch '/')) X) (rderiv X '/') := by
      simp [rderiv, nullable, scat]
    have hrepl : List.replicate (m + 1) '/' ++ t = '/' :: (List.replicate m '/' ++ t) := by
      simp [List.replicate_succ]
    rw [hrepl]
    show reMatch (rderiv (RE.cat (RE.star (RE.ch '/')) X) '/') (List.replicate m '/' ++ t) = true
    rw [hstep, reMatch_salt, reMatch_alt, ih t h]
    simp

/-- Any tail accepted after a single slash by `(star '/') ⬝ X` is accepted by
`('/'+ ) ⬝ X` behind any positive number of leading slashes. -/
theorem reMatch_plus_slash (X : RE) (n : Nat) (t : List Char)
    (h : reMatch (RE.cat (RE.star (RE.ch '/')) X) t = true) :
    reMatch (RE.cat (plusRE (RE.ch '/')) X) (List.replicate (n + 1) '/' ++ t) = true := by
  have hstep : rderiv (RE.cat (plusRE (RE.ch '/')) X) '/' =
      RE.cat (RE.star (RE.ch '/')) X := by
    simp [plusRE, rderiv, nullable, scat]
  have hrepl : List.replicate (n + 1) '/' ++ t = '/' :: (List.replicate n '/' ++ t) := by
    simp [List.replicate_succ]
  rw [hrepl]
  show reMatch (rderiv (RE.cat (plusRE (RE.ch '/')) X) '/') (List.replicate n '/' ++ t) = true
  rw [hstep]
  exact reMatch_star_slash_pump X n t h

/-!
## Helper lemmas: the `get_day_month` scanning loop
-/

theorem except_bind_ok {ε α β : Type} (a : α) (f : α → Except ε β) :
    (Except.ok a >>= f : Except ε β) = f a := rfl

theorem isDigit_ne {c x : Char} (h : c.isDigit = true) (hx : x.isDigit = false) :
    ¬(c = x) := by
  intro e
  rw [e, hx] at h
  cases h

/-- One loop iteration of `get_day_month` never raises and performs exactly
the overwrite-on-match update. -/
theorem gdmStep_eq (s : List Char) (dm : List Char × List Char) (i : Nat) :
    gdmStep s dm i = Except.ok (if matchAt s i then pairAt s i else dm) := by
  have e1 : i + 2 - i = 2 := by omega
  have e2 : i + 5 - (i + 3) = 2 := by omega
  have e5 : i + 5 - i = 5 := by omega
  have hdrop3 : s.drop (i + 3) = (s.drop i).drop 3 := by
    rw [List.drop_drop]
  have hdrop2 : s.drop (i + 2) = (s.drop i).drop 2 := by
    rw [List.drop_drop]
  simp only [gdmStep, matchAt, pairAt, pySlice, getChar, e1, e2, e5, hdrop3, hdrop2]
  rcases hu : s.drop i with _ | ⟨a, _ | ⟨b, _ | ⟨c, _ | ⟨d, rest⟩⟩⟩⟩ <;>
    simp only [List.take_nil, List.drop_nil, List.take_cons, List.drop_succ_cons,
      List.headD_cons, List.headD_nil, List.take_zero]
  · simp [pyIsNumeric]
  · simp [pyIsNumeric]
  · simp [pyIsNumeric]
  · simp [pyIsNumeric]
  · -- s.drop i = a :: b :: c :: d :: rest
    by_cases hnum : pyIsNumeric [a, b] && pyIsNumeric (d :: rest.take 1)
    · have hn1 := hnum
      simp only [Bool.and_eq_true, pyIsNumeric, List.all_eq_true, List.isEmpty_cons,
        Bool.not_false, Bool.true_and, true_and] at hn1
      obtain ⟨ha', hd'⟩ := hn1
      have hadig : a.isDigit = true := ha' a (by simp)
      have hbdig : b.isDigit = true := ha' b (by simp)
      have hwin : ∀ sep : Char, sep.isDigit = false →
          ([a, b] : List Char) ++ sep :: (d :: rest.take 1) =
            a :: b :: sep :: d :: rest.take 1 := by
        intro _ _; rfl
      by_cases hc : c = '/'
      · subst hc
        have hsplit : pySplit '/' (a :: b :: '/' :: d :: rest.take 1) =
            [[a, b], d :: rest.take 1] := by
          rw [← hwin '/' (by decide)]
          exact pySplit_two
            (not_mem_of_digits (by intro x hx; simp at hx; rcases hx with e | e <;> simp [e, hadig, hbdig]) (by decide))
            (not_mem_of_digits hd' (by decide))
        simp [hnum, hsplit]
      · by_cases hc2 : c = '-'
        · subst hc2
          have hsplit : pySplit '-' (a :: b :: '-' :: d :: rest.take 1) =
              [[a, b], d :: rest.take 1] := by
            rw [← hwin '-' (by decide)]
            exact pySplit_two
              (not_mem_of_digits (by intro x hx; simp at hx; rcases hx with e | e <;> simp [e, hadig, hbdig]) (by decide))
              (not_mem_of_digits hd' (by decide))
          simp [hnum, hsplit, hc]
        · simp [hnum, hc, hc2]
    · simp [hnum]

/-- The whole scanning loop never raises: it is the pure overwrite fold. -/
theorem foldlM_gdmStep (s : List Char) : ∀ (l : List Nat) (dm : List Char × List Char),
    l.foldlM (gdmStep s) dm =
      Except.ok (l.foldl (fun dm i => if matchAt s i then pairAt s i else dm) dm) := by
  intro l
  induction l with
  | nil => intro dm; rfl
  | cons i t ih =>
    intro dm
    rw [List.foldlM_cons, gdmStep_eq, except_bind_ok, ih, List.foldl_cons]

/-- The overwrite fold computes the value at the last matching index. -/
theorem foldl_lastw (s : List Char) : ∀ (l : List Nat) (dm : List Char × List Char),
    l.foldl (fun dm i => if matchAt s i then pairAt s i else dm) dm =
      (match l.reverse.find? (matchAt s) with
        | some i => pairAt s i
        | none => dm) := by
  intro l
  induction l with
  | nil => intro dm; rfl
  | cons i t ih =>
    intro dm
    rw [List.foldl_cons, ih, List.reverse_cons, List.find?_append]
    cases hf : t.reverse.find? (matchAt s) with
    | some j => simp [Option.or]
    | none =>
      by_cases hm : matchAt s i <;> simp [Option.or, List.find?_cons, hm]

/-!
## Helper lemmas: the time round-trip
-/

theorem natChars_not_mem_colon (n : Nat) : ':' ∉ natChars n :=
  not_mem_of_digits (natChars_digits n) (by decide)

theorem natChars_not_mem_space (n : Nat) : ' ' ∉ natChars n :=
  not_mem_of_digits (natChars_digits n) (by decide)

theorem pad2_not_mem_colon (n : Nat) : ':' ∉ pad2 n :=
  not_mem_of_digits (pad2_digits n) (by decide)

theorem pad2_not_mem_space (n : Nat) : ' ' ∉ pad2 n :=
  not_mem_of_digits (pad2_digits n) (by decide)

theorem pySplit_hmsStr (H M S : Nat) :
    pySplit ':' (hmsStr H M S) = [natChars H, pad2 M, pad2 S] :=
  pySplit_three (natChars_not_mem_colon H) (pad2_not_mem_colon M) (pad2_not_mem_colon S)

theorem hmsStr_no_space (H M S : Nat) : ' ' ∉ hmsStr H M S := by
  have h1 := natChars_not_mem_space H
  have h2 := pad2_not_mem_space M
  have h3 := pad2_not_mem_space S
  simp [hmsStr, List.mem_append, List.mem_cons, h1, h2, h3]

theorem time_to_timedelta_hmsStr (H M S : Nat) :
    time_to_timedelta (hmsStr H M S) = Except.ok ((3600 * H + 60 * M + S : Nat) : Int) := by
  have hcast : ((3600 * H + 60 * M + S : Nat) : Int) =
      3600 * (H : Int) + 60 * (M : Int) + (S : Int) := by
    push_cast
    ring
  rw [hcast]
  unfold time_to_timedelta
  rw [pySplit_hmsStr]
  simp only [List.mapM_cons, List.mapM_nil, pyInt_natChars, pyInt_pad2, except_bind_ok,
    pure_bind, bind_assoc]
  rfl

theorem intChars_natCast (n : Nat) : intChars ((n : Nat) : Int) = natChars n := by
  simp [intChars]

/-- Reading `timedelta_to_time` off a rendered `D day(s), H:MM:SS` string. -/
theorem timedelta_to_time_from_parts (t : Int) (d : Nat) (w : List Char) (hw : ' ' ∉ w)
    (h24 M S : Nat)
    (hstr : timedeltaStr t = natChars d ++ ' ' :: (w ++ ' ' :: hmsStr h24 M S)) :
    timedelta_to_time t =
      Except.ok (intChars ((h24 : Int) + 24 * (d : Int)) ++ ':' :: (pad2 M ++ ':' :: pad2 S)) := by
  unfold timedelta_to_time
  rw [hstr, pySplit_three (natChars_not_mem_space d) hw (hmsStr_no_space h24 M S)]
  simp only [List.length_cons, List.length_nil, Nat.reduceAdd, gt_iff_lt, Nat.one_lt_ofNat,
    if_true]
  simp [pyIndex, pySplit_hmsStr, pyInt_natChars, intercalate_two, except_bind_ok]

/-- Rendering `3600*H + 60*M + S` seconds back to text gives the canonical
`H:MM:SS` string, folding days into hours. -/
theorem timedelta_to_time_hms (H M S : Nat) (hM : M < 60) (hS : S < 60) :
    timedelta_to_time ((3600 * H + 60 * M + S : Nat) : Int) = Except.ok (hmsStr H M S) := by
  have hfd : Int.fdiv ((3600 * H + 60 * M + S : Nat) : Int) 86400 =
      (((3600 * H + 60 * M + S) / 86400 : Nat) : Int) := by
    rw [Int.fdiv_eq_ediv _ (by omega)]
    omega
  have hfm : Int.fmod ((3600 * H + 60 * M + S : Nat) : Int) 86400 =
      (((3600 * H + 60 * M + S) % 86400 : Nat) : Int) := by
    rw [Int.fmod_eq_emod _ (by omega)]
    omega
  have hq : (3600 * H + 60 * M + S) / 86400 = H / 24 := by omega
  have hA : (3600 * H + 60 * M + S) % 86400 / 3600 = H % 24 := by omega
  have hB : (3600 * H + 60 * M + S) % 86400 % 3600 / 60 = M := by omega
  have hC : (3600 * H + 60 * M + S) % 86400 % 60 = S := by omega
  by_cases hH : H < 24
  · have hq0 : H / 24 = 0 := by omega
    have hHm : H % 24 = H := Nat.mod_eq_of_lt hH
    have hstr : timedeltaStr ((3600 * H + 60 * M + S : Nat) : Int) = hmsStr H M S := by
      simp only [timedeltaStr, hfd, hfm, Int.toNat_natCast, hq, hA, hB, hC, hq0, hHm,
        Nat.cast_zero, if_pos]
      simp [hmsStr]
    unfold timedelta_to_time
    rw [hstr, pySplit_no_sep (hmsStr_no_space H M S)]
    simp only [List.length_cons, List.length_nil, gt_iff_lt, Nat.lt_irrefl, if_false]
    have hsp2 : pySplit ':' (natChars H ++ ':' :: (pad2 M ++ ':' :: pad2 S)) =
        [natChars H, pad2 M, pad2 S] := pySplit_hmsStr H M S
    simp [pyIndex, hsp2, intercalate_two, hmsStr, except_bind_ok, Except.map]
  · have hq1 : H / 24 ≠ 0 := by omega
    have hc0 : ¬((((H / 24 : Nat)) : Int) = 0) := by omega
    have harith : ((H % 24 : Nat) : Int) + 24 * ((H / 24 : Nat) : Int) = ((H : Nat) : Int) := by
      push_cast
      omega
    have hmain : ∀ w : List Char, ' ' ∉ w →
        timedeltaStr ((3600 * H + 60 * M + S : Nat) : Int) =
          natChars (H / 24) ++ ' ' :: (w ++ ' ' :: hmsStr (H % 24) M S) →
        timedelta_to_time ((3600 * H + 60 * M + S : Nat) : Int) = Except.ok (hmsStr H M S) := by
      intro w hw hstr
      rw [timedelta_to_time_from_parts _ (H / 24) w hw (H % 24) M S hstr, harith,
        intChars_natCast]
      rfl
    by_cases h1 : H / 24 = 1
    · refine hmain "day,".toList (by decide) ?_
      simp only [timedeltaStr, hfd, hfm, Int.toNat_natCast, hq, hA, hB, hC]
      rw [if_neg hc0, intChars_natCast, h1]
      simp [hmsStr, List.append_assoc]
    · refine hmain "days,".toList (by decide) ?_
      simp only [timedeltaStr, hfd, hfm, Int.toNat_natCast, hq, hA, hB, hC]
      rw [if_neg hc0, intChars_natCast]
      have hn1 : ¬((((H / 24 : Nat)) : Int) = 1) := by omega
      have hn2 : ¬((((H / 24 : Nat)) : Int) = -1) := by omega
      have hn1' : ¬((H : Int) / 24 = 1) := by omega
      have hn2' : ¬((H : Int) / 24 = -1) := by omega
      simp [hn1, hn2, hn1', hn2', hmsStr, List.append_assoc]

/-!
## Helper lemmas: validators, field selector, month table
-/

theorem except_bind_error {ε α β : Type} (e : ε) (f : α → Except ε β) :
    (Except.error e >>= f : Except ε β) = Except.error e := rfl

theorem forM_contains (available_fields : List String) : ∀ args : List String,
    (args.forM (fun arg =>
      if available_fields.contains arg then pure ()
      else Except.error (.valueError "Invalid field argument")) : Except PyErr PUnit) =
      (if args.all available_fields.contains then Except.ok PUnit.unit
       else Except.error (.valueError "Invalid field argument")) := by
  intro args
  induction args with
  | nil => rfl
  | cons a t ih =>
    simp only [List.forM, List.all_cons]
    by_cases ha : available_fields.contains a
    · simp only [show (if available_fields.contains a then (pure () : Except PyErr PUnit)
          else Except.error (.valueError "Invalid field argument")) = pure ()
        from if_pos ha, ha, Bool.true_and, pure_bind]
      exact ih
    · have ha2 : available_fields.contains a = false := by simpa using ha
      simp only [show (if available_fields.contains a then (pure () : Except PyErr PUnit)
          else Except.error (.valueError "Invalid field argument")) =
          Except.error (.valueError "Invalid field argument")
        from if_neg ha, ha2, Bool.false_and, except_bind_error]
      rfl

theorem monthNames_getD_no_space {k : Nat} (hk : k < 12) : ' ' ∉ monthNames.getD k [] := by
  interval_cases k <;> decide

theorem strptimeMonthB_getD {k : Nat} (hk : k < 12) :
    strptimeMonthB (monthNames.getD k []) = some (k + 1) := by
  interval_cases k <;> decide

theorem inBoundsB_iff (min_ max_ : XInt) (n : Int) :
    inBoundsB min_ n max_ = true ↔ (xGt n max_ || xLt n min_) = false := by
  cases min_ <;> cases max_ <;> (simp [inBoundsB, xGt, xLt] ; try omega)

/-!
## The claims
-/

/-- Claim C1 (counterexample): on `"01/02 03/04"` the scanner returns the pair
of the last matching window, `("03", "04")`, while the first matching window
(the claim's reading) gives `("01", "02")`. -/
theorem get_day_month_not_first_window :
    get_day_month ("01/02 03/04".toList) = Except.ok ("03".toList, "04".toList) ∧
    get_day_month_firstw ("01/02 03/04".toList) = Except.ok ("01".toList, "02".toList) ∧
    (("03".toList, "04".toList) : List Char × List Char) ≠ ("01".toList, "02".toList) :=
  ⟨rfl, rfl, by decide⟩

/-- Claim C1 (amended): for every input string, `get_day_month` returns the
`(day, month)` pair taken from the LAST 5-character window whose characters at
offsets 0–1 and 3–4 are numeric and whose character at offset 2 is `/` or `-`
(each match overwrites the previous one); if no such window exists anywhere in
the string, it raises `ValueError` carrying the source's descriptive message
and returns nothing. -/
theorem get_day_month_returns_last_window (s : List Char) :
    get_day_month s = get_day_month_lastw s := by
  unfold get_day_month get_day_month_lastw lastMatchIdx
  rw [foldlM_gdmStep, except_bind_ok, foldl_lastw]
  cases hf : (List.range (s.length - 4)).reverse.find? (matchAt s) with
  | some i =>
    have hm := List.find?_some hf
    simp only [matchAt, Bool.and_eq_true] at hm
    obtain ⟨⟨h1, h2⟩, h3⟩ := hm
    simp [pairAt, h1, h2, pure, Except.pure]
  | none => simp [pyIsNumeric]

/-- Claim C2 (the code at the failing configuration): with a `None` string and
`can_be_none = False`, `validate_string` still evaluates `len(None)` and so
raises `TypeError` — for every matcher, bounds, regex, options and caller
error — rather than raising the `ParsedValueInvalidError`/caller-supplied
error as claimed. -/
theorem validate_string_none_raises_type_error
    (re_fullmatch : List Char → List Char → Bool) (min_length : Int)
    (max_length : XInt) (regex : List Char) (options : Option (List (List Char)))
    (error : Option PyErr) :
    validate_string re_fullmatch none min_length max_length regex options false error =
      Except.error (.typeError "object of type \x27NoneType\x27 has no len()") := rfl

/-- Claim C3 (the code at the failing input): on the three-component input
`"4:5:6"`, `format_time` writes the padded values of the last two components
back at positions 0 and 1, producing `"05:06:6"` instead of the claimed
`"4:05:06"`; the claim's own examples `"5:9"` and `"45:12:30"` are
reproduced. -/
theorem format_time_misplaces_padding :
    format_time ("4:5:6".toList) = "05:06:6".toList ∧
    format_time ("5:9".toList) = "0:05:09".toList ∧
    format_time ("45:12:30".toList) = "45:12:30".toList :=
  ⟨rfl, rfl, rfl⟩

/-- Claim C4: round-trip identity — for every well-formed `H:MM:SS` string
(hours a plain non-negative decimal possibly exceeding 23, minutes and seconds
two digits each in 00–59), composing `time_to_timedelta` with
`timedelta_to_time` yields the identical string, including when the
intermediate duration spans days, which are folded back into hours at 24
hours per day. -/
theorem time_roundtrip (H M S : Nat) (hM : M < 60) (hS : S < 60) :
    (time_to_timedelta (hmsStr H M S)).bind timedelta_to_time =
      Except.ok (hmsStr H M S) := by
  rw [time_to_timedelta_hmsStr]
  exact timedelta_to_time_hms H M S hM hS

/-- Witness for the round-trip at the concrete day-spanning time `25:05:09`. -/
theorem time_roundtrip_witness :
    (time_to_timedelta (hmsStr 25 5 9)).bind timedelta_to_time =
      Except.ok (hmsStr 25 5 9) :=
  time_roundtrip 25 5 9 (by decide) (by decide)

/-- Claim C5: `add_time` equals the spec's pipeline — normalize each operand
with `format_time`, convert each with `time_to_timedelta`, sum the durations,
render with `timedelta_to_time` — and `add_time "1:30" "0:45" = "0:02:15"`. -/
theorem add_time_is_pipeline :
    (∀ time1 time2 : List Char, add_time time1 time2 = add_time_pipeline time1 time2) ∧
    add_time ("1:30".toList) ("0:45".toList) = Except.ok ("0:02:15".toList) :=
  ⟨fun _ _ => rfl, rfl⟩

/-- Claim C6: `parse_table_fields_args` raises the invalid-argument
`ValueError` when some requested name is not among the legal names; otherwise
it returns the requested names in their given order when the request is
non-empty, and all legal names in their defined order when it is empty. -/
theorem parse_table_fields_args_correct (args available_fields : List String) :
    parse_table_fields_args args available_fields =
      (if args.all available_fields.contains then
        (if args.isEmpty then Except.ok available_fields else Except.ok args)
       else Except.error (.valueError "Invalid field argument")) := by
  unfold parse_table_fields_args
  rw [forM_contains]
  by_cases hall : args.all available_fields.contains
  · by_cases he : args.isEmpty <;> simp [hall, he, except_bind_ok]
  · simp [hall, except_bind_error]

/-- Claim C7: for every `"D Month YYYY"` date (single spaces, month a full
English month name), `convert_date` resolves the month to its 1-based number,
zero-pads the month to two digits, leaves the day exactly as given, and
returns `"YYYY-MM-D"` assembled with hyphens. -/
theorem convert_date_correct (day year : List Char) (k : Nat) (hk : k < 12)
    (hday : ' ' ∉ day) (hyear : ' ' ∉ year) :
    convert_date (day ++ ' ' :: (monthNames.getD k [] ++ ' ' :: year)) =
      Except.ok (year ++ '-' :: ((if k + 1 < 10 then '0' :: natChars (k + 1)
        else natChars (k + 1)) ++ '-' :: day)) := by
  unfold convert_date
  rw [pySplit_three hday (monthNames_getD_no_space hk) hyear]
  simp only [strptimeMonthB_getD hk]
  simp [intercalate_three, List.append_assoc]

/-- Witness: `convert_date "30 July 2022" = "2022-07-30"`. -/
theorem convert_date_correct_witness :
    convert_date ("30".toList ++ ' ' :: (monthNames.getD 6 [] ++ ' ' :: "2022".toList)) =
      Except.ok ("2022".toList ++ '-' :: ((if 6 + 1 < 10 then '0' :: natChars (6 + 1)
        else natChars (6 + 1)) ++ '-' :: "30".toList)) :=
  convert_date_correct "30".toList "2022".toList 6 (by decide) (by decide) (by decide)

/-- Claim C8: for every non-`None` number and every pair of bounds,
`validate_number` returns normally exactly when `min_ ≤ number ≤ max_`
(inclusive), and otherwise raises the `ParsedValueInvalidError` carrying the
offending value — or the caller-supplied error when one is given. -/
theorem validate_number_correct (n : Int) (min_ max_ : XInt) (can_be_none : Bool)
    (error : Option PyErr) :
    validate_number (some n) min_ max_ can_be_none error =
      (if inBoundsB min_ n max_ then Except.ok ()
       else Except.error (error.getD (.parsedValueInvalidN (some n)))) := by
  have hcode : validate_number (some n) min_ max_ can_be_none error =
      (if (xGt n max_ || xLt n min_) then
        Except.error (error.getD (.parsedValueInvalidN (some n)))
       else Except.ok ()) := by
    cases error <;>
      cases hgl : (xGt n max_ || xLt n min_) <;>
      simp [validate_number, Option.getD, hgl, except_bind_ok, pure, Except.pure]
  rw [hcode]
  by_cases hib : inBoundsB min_ n max_ = true
  · have hfalse := (inBoundsB_iff min_ max_ n).mp hib
    simp [hib, hfalse]
  · have htrue : (xGt n max_ || xLt n min_) = true := by
      cases hgl : (xGt n max_ || xLt n min_)
      · exact absurd ((inBoundsB_iff min_ max_ n).mpr hgl) hib
      · rfl
    simp [htrue, hib]

/-- Claim C9 (counterexample): `reg.base_url` accepts its documented example
match `https://www.procyclingstats.com/`, a string that does not begin with a
path separator `/`. -/
theorem reg_base_url_not_slash_anchored :
    reMatch reg.base_url ("https://www.procyclingstats.com/".toList) = true ∧
    ∀ t : List Char, ("https://www.procyclingstats.com/".toList) ≠ '/' :: t := by
  constructor
  · decide
  · intro t h
    injection h with h1 _
    exact absurd h1 (by decide)

/-- Claim C9 (amended): every string matched by `url_str`, `year`, `stage`,
`result`, `overview`, `startlist`, `anything` or `team_url_str` begins with a
path separator `/`; the first seven of these (written with `\/+`) accept any
positive number of leading slashes before their documented segment, while
`team_url_str` (written with a single `\/`) accepts exactly one leading slash
and rejects a second; `base_url` is not slash-anchored (see the
counterexample). -/
theorem reg_slash_anchoring :
    (∀ s, reMatch reg.url_str s = true → ∃ t, s = '/' :: t) ∧
    (∀ s, reMatch reg.year s = true → ∃ t, s = '/' :: t) ∧
    (∀ s, reMatch reg.stage s = true → ∃ t, s = '/' :: t) ∧
    (∀ s, reMatch reg.result s = true → ∃ t, s = '/' :: t) ∧
    (∀ s, reMatch reg.overview s = true → ∃ t, s = '/' :: t) ∧
    (∀ s, reMatch reg.startlist s = true → ∃ t, s = '/' :: t) ∧
    (∀ s, reMatch reg.anything s = true → ∃ t, s = '/' :: t) ∧
    (∀ s, reMatch reg.team_url_str s = true → ∃ t, s = '/' :: t) ∧
    (∀ n, reMatch reg.url_str
      (List.replicate (n + 1) '/' ++ "This-is-url-StriNg".toList) = true) ∧
    (∀ n, reMatch reg.year (List.replicate (n + 1) '/' ++ "1111".toList) = true) ∧
    (∀ n, reMatch reg.stage (List.replicate (n + 1) '/' ++ "stage-20/gc".toList) = true) ∧
    (∀ n, reMatch reg.result (List.replicate (n + 1) '/' ++ "result".toList) = true) ∧
    (∀ n, reMatch reg.overview (List.replicate (n + 1) '/' ++ "overview".toList) = true) ∧
    (∀ n, reMatch reg.startlist (List.replicate (n + 1) '/' ++ "startlist".toList) = true) ∧
    (∀ n, reMatch reg.anything
      (List.replicate (n + 1) '/' ++ "ffefwf//fwefw/aa".toList) = true) ∧
    reMatch reg.team_url_str ("/bora-hansgrohe-2022".toList) = true ∧
    reMatch reg.team_url_str ("//bora-hansgrohe-2022".toList) = false := by
  refine ⟨fun s hs => reMatch_mustStart (by decide) hs,
    fun s hs => reMatch_mustStart (by decide) hs,
    fun s hs => reMatch_mustStart (by decide) hs,
    fun s hs => reMatch_mustStart (by decide) hs,
    fun s hs => reMatch_mustStart (by decide) hs,
    fun s hs => reMatch_mustStart (by decide) hs,
    fun s hs => reMatch_mustStart (by decide) hs,
    fun s hs => reMatch_mustStart (by decide) hs,
    fun n => reMatch_plus_slash _ n _ (by decide),
    fun n => reMatch_plus_slash _ n _ (by decide),
    fun n => reMatch_plus_slash _ n _ (by decide),
    fun n => reMatch_plus_slash _ n _ (by decide),
    fun n => reMatch_plus_slash _ n _ (by decide),
    fun n => reMatch_plus_slash _ n _ (by decide),
    fun n => reMatch_plus_slash _ n _ (by decide),
    by decide, by decide⟩

/-- Witness: the year fragment accepts `//1111`, whose match starts with a
slash. -/
theorem reg_slash_anchoring_witness : ∃ t, ("//1111".toList) = '/' :: t :=
  reg_slash_anchoring.2.1 ("//1111".toList) (by decide)

/-- Claim C10: with a `None` value and `can_be_none = True` (all other
constraints at their defaults), neither validator returns normally:
`validate_string` raises `TypeError` from evaluating `len(None)` and
`validate_number` raises `TypeError` from comparing `None` with its bounds, so
`None` is never accepted even when declared nullable. -/
theorem validate_none_never_accepted :
    (∀ re_fullmatch : List Char → List Char → Bool,
      validate_string re_fullmatch none 0 XInt.posInf [] none true none =
        Except.error (.typeError "object of type \x27NoneType\x27 has no len()")) ∧
    validate_number none XInt.negInf XInt.posInf true none =
      Except.error
        (.typeError "\x27>\x27 not supported between instances of \x27NoneType\x27 and \x27int\x27") :=
  ⟨fun _ => rfl, rfl⟩
